import Mathlib

/-!
Verification of the routing/scheduling subsystem of `maxfield-app1`
(`src/maxfield/maxfield/router.py`).

The embedding below translates `Router.route_agents` and its helpers.
`route_agents` has three paths:
* a round-robin fallback used when the OR-Tools library fails to import
  (`HAS_ORTOOLS == False`, lines 87-108);
* a trivial single-agent path used when OR-Tools is available and
  `num_agents == 1` (lines 113-130);
* the optimized path (lines 132-237), where the OR-Tools vehicle-routing
  solver is an external library: it is abstracted by a `SolverSolution`
  parameter carrying the per-agent visiting order over the run-length-cut
  origin groups and the arrival time the solution assigns to each group,
  while the surrounding Python (grouping, extraction of assignments,
  error on a missing solution, final sort) is embedded directly.

Machine integers do not overflow here (Python ints are unbounded), so times
and distances are `Int` and indices are `Nat`.  Python `//` is floor
division, embedded as `Int.fdiv`.  Python `sorted` with the `arrive` key is
a stable sort by `arrive`; it is embedded with `List.insertionSort`, which
is stable and sorts by the given relation.
-/

namespace Maxfield

/-- walking speed (m/s); router.py line 23 (`_WALKSPEED = 1`). -/
def WALKSPEED : Int := 1

/-- Seconds required to communicate completed links; router.py line 26
(`_COMMTIME = 30`). -/
def COMMTIME : Int := 30

/-- Seconds required to create a link; router.py line 29
(`_LINKTIME = 30`). -/
def LINKTIME : Int := 30

/-- One scheduled action: the dict
`{'agent', 'location', 'arrive', 'link', 'depart'}` built by
`Router.route_agents`.  Nodes (portals) are opaque ids, embedded as `Nat`. -/
structure Assignment where
  agent : Nat
  location : Nat
  arrive : Int
  link : Nat
  depart : Int
deriving DecidableEq, Repr

/-- Default assignment used with `List.getD` when stating index-wise facts. -/
def A0 : Assignment := ⟨0, 0, 0, 0, 0⟩

/-- The unhandled Python exceptions that `route_agents` can raise:
`ZeroDivisionError` from the unguarded `i % self.num_agents` (line 92) when
`num_agents == 0`, and `ValueError("No valid assignments found")` (line 213)
when the solver returns no solution.  The code defines no input-validation
error of any kind. -/
inductive RouterErr where
  | zeroDivisionError
  | noValidAssignments
deriving DecidableEq, Repr

/-- Abstraction of the external OR-Tools result (`solution` in
`route_agents`, lines 211-234): for each agent, the sequence of cut-origin
nodes its route visits (1-based; node 0 is the dummy depot and never
appears), and the arrival time
`solution.Min(time_dimension.CumulVar(index))` read off for each visited
node. -/
structure SolverSolution where
  routes : List (List Nat)
  arriveAt : Nat → Int

/-- Comparison used by the final `sorted(assignments, key=lambda k: k['arrive'])`
(lines 107 and 236). -/
def arriveLE (a b : Assignment) : Prop := a.arrive ≤ b.arrive

instance : DecidableRel arriveLE := fun a b =>
  inferInstanceAs (Decidable (a.arrive ≤ b.arrive))

instance : IsTotal Assignment arriveLE :=
  ⟨fun a b => Int.le_total a.arrive b.arrive⟩

instance : IsTrans Assignment arriveLE :=
  ⟨fun _ _ _ h h' => Int.le_trans h h'⟩

/-- The round-robin fallback loop (lines 88-105): iterate the ordered links,
assign link `i` to agent `i % num_agents`, advance a running clock `t` by
`_LINKTIME` per link.  Python's `i % 0` raises `ZeroDivisionError`, so a zero
agent count with a nonempty list yields that error. -/
def fallbackLoop (num_agents : Nat) :
    List (Nat × Nat) → Nat → Int → Except RouterErr (List Assignment)
  | [], _, _ => .ok []
  | (origin, dest) :: rest, i, t =>
    if num_agents = 0 then
      .error .zeroDivisionError
    else
      match fallbackLoop num_agents rest (i + 1) (t + LINKTIME) with
      | .error e => .error e
      | .ok tail =>
        .ok ({ agent := i % num_agents, location := origin, arrive := t,
               link := dest, depart := t + LINKTIME } :: tail)

/-- The single-agent loop body for `i > 0` (lines 115-129): carries the
previous link's origin and departure time;
`arrive = depart + portals_dists[prev_origin, origin] // _WALKSPEED`. -/
def singleRest (portals_dists : Nat → Nat → Int) :
    Nat → Int → List (Nat × Nat) → List Assignment
  | _, _, [] => []
  | prevOrigin, prevDepart, (origin, dest) :: rest =>
    let arrive := prevDepart + Int.fdiv (portals_dists prevOrigin origin) WALKSPEED
    { agent := 0, location := origin, arrive := arrive, link := dest,
      depart := arrive + LINKTIME }
      :: singleRest portals_dists origin (arrive + LINKTIME) rest

/-- The trivial path for `num_agents == 1` with OR-Tools available
(lines 113-130): the first link gets `arrive = 0`, later links chain
arrival from the previous departure plus travel time. -/
def singleAgentAssignments (portals_dists : Nat → Nat → Int) :
    List (Nat × Nat) → List Assignment
  | [] => []
  | (origin, dest) :: rest =>
    { agent := 0, location := origin, arrive := 0, link := dest,
      depart := 0 + LINKTIME }
      :: singleRest portals_dists origin (0 + LINKTIME) rest

/-- `itertools.groupby` over the ordered origins (lines 133-134): splits the
ordered link list into maximal runs of links sharing an origin.  The cut
origins are the heads of the runs and `count_cut_origins` their lengths. -/
def groupRuns : List (Nat × Nat) → List (List (Nat × Nat))
  | [] => []
  | l :: rest =>
    match groupRuns rest with
    | [] => [[l]]
    | g :: gs =>
      if l.1 = (g.headD (0, 0)).1 then (l :: g) :: gs else [l] :: g :: gs

/-- The inner extraction loop (lines 223-233): starting at link index `i`,
emit `n` assignments whose `arrive` starts at the group's arrival time and
advances by `_LINKTIME` per link (`arrive = depart` at line 233). -/
def emitFrom (ordered_links : List (Nat × Nat)) (agent : Nat) :
    Nat → Nat → Int → List Assignment
  | _, 0, _ => []
  | i, n + 1, arrive =>
    let lk := ordered_links.getD i (0, 0)
    { agent := agent, location := lk.1, arrive := arrive, link := lk.2,
      depart := arrive + LINKTIME }
      :: emitFrom ordered_links agent (i + 1) n (arrive + LINKTIME)

/-- One agent's route walk (lines 218-234): for each visited node, the link
offset is `sum(count_cut_origins[:node-1])`, the run length is
`count_cut_origins[node-1]`, and the starting arrival time is the solution's
cumulative time at that node. -/
def extractRoute (ordered_links : List (Nat × Nat)) (counts : List Nat)
    (agent : Nat) (arriveAt : Nat → Int) (route : List Nat) : List Assignment :=
  (route.map (fun node =>
    emitFrom ordered_links agent ((counts.take (node - 1)).sum)
      (counts.getD (node - 1) 0) (arriveAt node))).flatten

/-- The `for agent in range(self.num_agents)` loop of lines 217-234,
walking one solver route per agent. -/
def extractAll (ordered_links : List (Nat × Nat)) (counts : List Nat)
    (arriveAt : Nat → Int) (agent : Nat) :
    List (List Nat) → List Assignment
  | [] => []
  | route :: rest =>
    extractRoute ordered_links counts agent arriveAt route
      ++ extractAll ordered_links counts arriveAt (agent + 1) rest

/-- `Router.route_agents` (lines 80-237).  Parameters:
* `hasOrtools` — the module-level `HAS_ORTOOLS` capability probe
  (lines 16-20);
* `num_agents`, `portals_dists`, `ordered_links` — the `Router` instance
  fields read by `route_agents` (`ordered_links` already sorted by the
  links' `order` keys, as done in `__init__`);
* `solution` — the abstracted outcome of
  `routing.SolveFromAssignmentWithParameters` in the optimized path;
  `none` models a solver search that found no solution within its budget.

The instance's per-link dependency sets (`ordered_links_depends`) are read
only at lines 163-191 to post precedence constraints into the external
solver; they influence which `solution` the solver can return but not the
extraction of assignments from it, so they do not appear as a parameter. -/
def route_agents (hasOrtools : Bool) (num_agents : Nat)
    (portals_dists : Nat → Nat → Int) (ordered_links : List (Nat × Nat))
    (solution : Option SolverSolution) : Except RouterErr (List Assignment) :=
  if hasOrtools = false then
    match fallbackLoop num_agents ordered_links 0 0 with
    | .error e => .error e
    | .ok assignments => .ok (assignments.insertionSort arriveLE)
  else if num_agents = 1 then
    .ok (singleAgentAssignments portals_dists ordered_links)
  else
    match solution with
    | none => .error .noValidAssignments
    | some sol =>
      let counts := (groupRuns ordered_links).map List.length
      .ok ((extractAll ordered_links counts sol.arriveAt 0 sol.routes).insertionSort arriveLE)

/-- Follows the spec's words for the fallback schedule (§4.1.3): action `i`
is assigned to agent `i mod num_agents`, with a fixed-increment clock
(`arrive = i·LINKTIME`, `depart = arrive + LINKTIME`) that ignores travel. -/
def fallbackSpecSchedule (num_agents : Nat) (ordered_links : List (Nat × Nat)) :
    List Assignment :=
  (List.range ordered_links.length).map (fun i =>
    { agent := i % num_agents,
      location := (ordered_links.getD i (0, 0)).1,
      arrive := (i : Int) * LINKTIME,
      link := (ordered_links.getD i (0, 0)).2,
      depart := (i : Int) * LINKTIME + LINKTIME })

/-- Sum of the travel times between consecutive origins, as in the spec's
closed form for the single-agent total (§8, single-agent optimality). -/
def pairwiseTravel (portals_dists : Nat → Nat → Int) : List Nat → Int
  | [] => 0
  | [_] => 0
  | a :: b :: rest =>
    Int.fdiv (portals_dists a b) WALKSPEED + pairwiseTravel portals_dists (b :: rest)

/-- The spec's closed-form single-agent total elapsed time: one action
duration per link plus the pairwise travel times along consecutive
origins. -/
def closedFormTotal (portals_dists : Nat → Nat → Int)
    (ordered_links : List (Nat × Nat)) : Int :=
  ordered_links.length * LINKTIME
    + pairwiseTravel portals_dists (ordered_links.map Prod.fst)

/-- The action an assignment performs, as the pair (origin, target): the
`location` and `link` fields of the emitted dict identify the link being
created.  Coverage statements compare the multiset of these pairs with the
input link list. -/
def locationLink (a : Assignment) : Nat × Nat := (a.location, a.link)

/-- All-zero distance matrix, used for concrete inputs whose travel times
are irrelevant. -/
def zeroDists : Nat → Nat → Int := fun _ _ => 0

/-- Distance matrix with a single long leg between portals 0 and 4. -/
def farDists : Nat → Nat → Int := fun a b => if a = 0 ∧ b = 4 then 1000 else 0

/-- Distance matrix with a nonzero leg between portals 0 and 2. -/
def twoLegDists : Nat → Nat → Int := fun a b => if a = 0 ∧ b = 2 then 10 else 0

/-- A distance matrix with negative entries — a malformed input in the
sense of the spec's `InvalidInputError` taxonomy. -/
def negDists : Nat → Nat → Int := fun _ _ => -5

end Maxfield
namespace Maxfield

theorem fallbackLoop_eq (num_agents : Nat) (h : num_agents ≠ 0)
    (links : List (Nat × Nat)) : ∀ (i : Nat) (t : Int),
    fallbackLoop num_agents links i t =
      .ok ((List.range links.length).map (fun j =>
        { agent := (i + j) % num_agents,
          location := (links.getD j (0, 0)).1,
          arrive := t + (j : Int) * LINKTIME,
          link := (links.getD j (0, 0)).2,
          depart := t + (j : Int) * LINKTIME + LINKTIME })) := by
  induction links with
  | nil => intro i t; simp [fallbackLoop]
  | cons l rest ih =>
    intro i t
    obtain ⟨o, d⟩ := l
    rw [fallbackLoop, if_neg h, ih (i + 1) (t + LINKTIME)]
    simp only [List.length_cons, List.range_succ_eq_map, List.map_cons, List.map_map]
    congr 1
    congr 1
    · simp
    · apply List.map_congr_left
      intro j _
      simp only [Function.comp, Nat.succ_eq_add_one, List.getD_cons_succ]
      congr 1
      · congr 1
        omega
      · push_cast; ring
      · push_cast; ring

theorem fallbackLoop_zero_agents (links : List (Nat × Nat)) (h : links ≠ [])
    (i : Nat) (t : Int) : fallbackLoop 0 links i t = .error .zeroDivisionError := by
  cases links with
  | nil => exact absurd rfl h
  | cons l rest => obtain ⟨o, d⟩ := l; simp [fallbackLoop]

theorem fallbackSpec_sorted (num_agents : Nat) (links : List (Nat × Nat)) :
    List.Sorted arriveLE (fallbackSpecSchedule num_agents links) := by
  rw [fallbackSpecSchedule, List.Sorted]
  rw [List.pairwise_map]
  have := List.pairwise_lt_range' 0 links.length 1
  rw [← List.range_eq_range'] at this
  apply this.imp
  intro j k hjk
  simp only [arriveLE, LINKTIME]
  have : (j : Int) ≤ (k : Int) := by exact_mod_cast Nat.le_of_lt hjk
  omega

theorem fallbackSpec_pairwise_depart (num_agents : Nat) (links : List (Nat × Nat)) :
    (fallbackSpecSchedule num_agents links).Pairwise (fun x y => x.depart ≤ y.arrive) := by
  rw [fallbackSpecSchedule, List.pairwise_map]
  have := List.pairwise_lt_range' 0 links.length 1
  rw [← List.range_eq_range'] at this
  apply this.imp
  intro j k hjk
  simp only [LINKTIME]
  have : (j : Int) < (k : Int) := by exact_mod_cast hjk
  omega

theorem fallbackLoop_spec (num_agents : Nat) (h : num_agents ≠ 0)
    (links : List (Nat × Nat)) :
    fallbackLoop num_agents links 0 0 = .ok (fallbackSpecSchedule num_agents links) := by
  rw [fallbackLoop_eq num_agents h links 0 0, fallbackSpecSchedule]
  congr 1
  apply List.map_congr_left
  intro j _
  congr 1 <;> simp

theorem route_agents_fallback (num_agents : Nat) (h : num_agents ≠ 0)
    (portals_dists : Nat → Nat → Int) (links : List (Nat × Nat))
    (sol : Option SolverSolution) :
    route_agents false num_agents portals_dists links sol =
      .ok (fallbackSpecSchedule num_agents links) := by
  rw [route_agents.eq_def, if_pos rfl]
  simp only [fallbackLoop_spec num_agents h]
  rw [(fallbackSpec_sorted num_agents links).insertionSort_eq]

theorem singleRest_length (d : Nat → Nat → Int) :
    ∀ (rest : List (Nat × Nat)) (o : Nat) (t : Int),
      (singleRest d o t rest).length = rest.length := by
  intro rest
  induction rest with
  | nil => intro o t; rfl
  | cons l r ih => intro o t; obtain ⟨a, b⟩ := l; simp [singleRest, ih]

theorem singleRest_depart (d : Nat → Nat → Int) :
    ∀ (rest : List (Nat × Nat)) (o : Nat) (t : Int),
      ∀ a ∈ singleRest d o t rest, a.depart = a.arrive + LINKTIME := by
  intro rest
  induction rest with
  | nil => intro o t a ha; simp [singleRest] at ha
  | cons l r ih =>
    intro o t a ha
    obtain ⟨x, y⟩ := l
    rw [singleRest] at ha
    rcases List.mem_cons.mp ha with h | h
    · subst h; rfl
    · exact ih x _ a h

theorem singleRest_agent (d : Nat → Nat → Int) :
    ∀ (rest : List (Nat × Nat)) (o : Nat) (t : Int),
      ∀ a ∈ singleRest d o t rest, a.agent = 0 := by
  intro rest
  induction rest with
  | nil => intro o t a ha; simp [singleRest] at ha
  | cons l r ih =>
    intro o t a ha
    obtain ⟨x, y⟩ := l
    rw [singleRest] at ha
    rcases List.mem_cons.mp ha with h | h
    · subst h; rfl
    · exact ih _ _ a h

theorem singleRest_arrive_ge (d : Nat → Nat → Int) (hd : ∀ a b, 0 ≤ d a b) :
    ∀ (rest : List (Nat × Nat)) (o : Nat) (t : Int),
      ∀ a ∈ singleRest d o t rest, t ≤ a.arrive := by
  intro rest
  induction rest with
  | nil => intro o t a ha; simp [singleRest] at ha
  | cons l r ih =>
    intro o t a ha
    obtain ⟨x, y⟩ := l
    rw [singleRest] at ha
    have hge : (0 : Int) ≤ Int.fdiv (d o x) WALKSPEED :=
      Int.fdiv_nonneg (hd o x) (by norm_num [WALKSPEED])
    rcases List.mem_cons.mp ha with h | h
    · subst h; simp; omega
    · have := ih x (t + Int.fdiv (d o x) WALKSPEED + LINKTIME) a h
      simp only [LINKTIME] at this ⊢
      omega

theorem singleRest_pairwise (d : Nat → Nat → Int) (hd : ∀ a b, 0 ≤ d a b) :
    ∀ (rest : List (Nat × Nat)) (o : Nat) (t : Int),
      (singleRest d o t rest).Pairwise (fun x y => x.depart ≤ y.arrive) := by
  intro rest
  induction rest with
  | nil => intro o t; simp [singleRest]
  | cons l r ih =>
    intro o t
    obtain ⟨x, y⟩ := l
    rw [singleRest]
    refine List.Pairwise.cons ?_ (ih x _)
    intro a ha
    have := singleRest_arrive_ge d hd r x _ a ha
    simpa using this

theorem singleRest_getD_fields (d : Nat → Nat → Int) :
    ∀ (rest : List (Nat × Nat)) (o : Nat) (t : Int) (i : Nat), i < rest.length →
      ((singleRest d o t rest).getD i A0).agent = 0 ∧
      ((singleRest d o t rest).getD i A0).location = (rest.getD i (0, 0)).1 ∧
      ((singleRest d o t rest).getD i A0).link = (rest.getD i (0, 0)).2 ∧
      ((singleRest d o t rest).getD i A0).depart =
        ((singleRest d o t rest).getD i A0).arrive + LINKTIME := by
  intro rest
  induction rest with
  | nil => intro o t i hi; simp at hi
  | cons l r ih =>
    intro o t i hi
    obtain ⟨x, y⟩ := l
    cases i with
    | zero => simp [singleRest]
    | succ i =>
      rw [singleRest]
      simp only [List.getD_cons_succ]
      exact ih x _ i (by simpa using hi)

theorem singleRest_head_arrive (d : Nat → Nat → Int) (o : Nat) (t : Int)
    (x : Nat × Nat) (r : List (Nat × Nat)) :
    ((singleRest d o t (x :: r)).getD 0 A0).arrive =
      t + Int.fdiv (d o x.1) WALKSPEED := by
  obtain ⟨a, b⟩ := x
  rfl

theorem singleRest_arrive_rec (d : Nat → Nat → Int) :
    ∀ (rest : List (Nat × Nat)) (o : Nat) (t : Int) (i : Nat), i + 1 < rest.length →
      ((singleRest d o t rest).getD (i + 1) A0).arrive =
        ((singleRest d o t rest).getD i A0).depart +
          Int.fdiv (d (rest.getD i (0, 0)).1 (rest.getD (i + 1) (0, 0)).1) WALKSPEED := by
  intro rest
  induction rest with
  | nil => intro o t i hi; simp at hi
  | cons l r ih =>
    intro o t i hi
    obtain ⟨x, y⟩ := l
    cases i with
    | zero =>
      cases r with
      | nil => simp at hi
      | cons z r' =>
        obtain ⟨zx, zy⟩ := z
        simp [singleRest]
    | succ i =>
      rw [singleRest]
      simp only [List.getD_cons_succ]
      exact ih x _ i (by simpa using hi)

theorem singleRest_getLast (d : Nat → Nat → Int) :
    ∀ (rest : List (Nat × Nat)) (o : Nat) (t : Int) (a0 : Assignment), rest ≠ [] →
      ((singleRest d o t rest).getLastD a0).depart =
        t + rest.length * LINKTIME + pairwiseTravel d (o :: rest.map Prod.fst) := by
  intro rest
  induction rest with
  | nil => intro o t a0 h; exact absurd rfl h
  | cons l r ih =>
    intro o t a0 _
    obtain ⟨x, y⟩ := l
    rw [singleRest, List.getLastD_cons]
    cases r with
    | nil =>
      simp [singleRest, pairwiseTravel]
      ring
    | cons z r' =>
      rw [ih x _ _ (by simp)]
      simp only [List.length_cons, List.map_cons, pairwiseTravel]
      push_cast
      ring

theorem single_length (d : Nat → Nat → Int) (links : List (Nat × Nat)) :
    (singleAgentAssignments d links).length = links.length := by
  cases links with
  | nil => rfl
  | cons l r =>
    obtain ⟨x, y⟩ := l
    simp [singleAgentAssignments, singleRest_length]

theorem single_depart (d : Nat → Nat → Int) (links : List (Nat × Nat)) :
    ∀ a ∈ singleAgentAssignments d links, a.depart = a.arrive + LINKTIME := by
  cases links with
  | nil => intro a ha; simp [singleAgentAssignments] at ha
  | cons l r =>
    intro a ha
    obtain ⟨x, y⟩ := l
    rw [singleAgentAssignments] at ha
    rcases List.mem_cons.mp ha with h | h
    · subst h; rfl
    · exact singleRest_depart d r x _ a h

theorem single_agent_field (d : Nat → Nat → Int) (links : List (Nat × Nat)) :
    ∀ a ∈ singleAgentAssignments d links, a.agent = 0 := by
  cases links with
  | nil => intro a ha; simp [singleAgentAssignments] at ha
  | cons l r =>
    intro a ha
    obtain ⟨x, y⟩ := l
    rw [singleAgentAssignments] at ha
    rcases List.mem_cons.mp ha with h | h
    · subst h; rfl
    · exact singleRest_agent d r x _ a h

theorem single_pairwise (d : Nat → Nat → Int) (hd : ∀ a b, 0 ≤ d a b)
    (links : List (Nat × Nat)) :
    (singleAgentAssignments d links).Pairwise (fun x y => x.depart ≤ y.arrive) := by
  cases links with
  | nil => simp [singleAgentAssignments]
  | cons l r =>
    obtain ⟨x, y⟩ := l
    rw [singleAgentAssignments]
    refine List.Pairwise.cons ?_ (singleRest_pairwise d hd r x _)
    intro a ha
    have := singleRest_arrive_ge d hd r x _ a ha
    simpa using this

theorem single_sorted (d : Nat → Nat → Int) (hd : ∀ a b, 0 ≤ d a b)
    (links : List (Nat × Nat)) :
    List.Sorted arriveLE (singleAgentAssignments d links) := by
  have hp := single_pairwise d hd links
  have hdep := single_depart d links
  refine List.Pairwise.imp_of_mem ?_ hp
  intro a b ha _ hab
  have : a.depart = a.arrive + LINKTIME := hdep a ha
  simp only [arriveLE, LINKTIME] at *
  omega

theorem single_getD_fields (d : Nat → Nat → Int) (links : List (Nat × Nat))
    (i : Nat) (hi : i < links.length) :
    ((singleAgentAssignments d links).getD i A0).agent = 0 ∧
    ((singleAgentAssignments d links).getD i A0).location = (links.getD i (0, 0)).1 ∧
    ((singleAgentAssignments d links).getD i A0).link = (links.getD i (0, 0)).2 ∧
    ((singleAgentAssignments d links).getD i A0).depart =
      ((singleAgentAssignments d links).getD i A0).arrive + LINKTIME := by
  cases links with
  | nil => simp at hi
  | cons l r =>
    obtain ⟨x, y⟩ := l
    cases i with
    | zero => simp [singleAgentAssignments]
    | succ i =>
      rw [singleAgentAssignments]
      simp only [List.getD_cons_succ]
      exact singleRest_getD_fields d r x _ i (by simpa using hi)

theorem single_arrive_zero (d : Nat → Nat → Int) (links : List (Nat × Nat))
    (h : 0 < links.length) :
    ((singleAgentAssignments d links).getD 0 A0).arrive = 0 := by
  cases links with
  | nil => simp at h
  | cons l r => obtain ⟨x, y⟩ := l; rfl

theorem single_arrive_rec (d : Nat → Nat → Int) (links : List (Nat × Nat))
    (i : Nat) (hi : i + 1 < links.length) :
    ((singleAgentAssignments d links).getD (i + 1) A0).arrive =
      ((singleAgentAssignments d links).getD i A0).depart +
        Int.fdiv (d (links.getD i (0, 0)).1 (links.getD (i + 1) (0, 0)).1) WALKSPEED := by
  cases links with
  | nil => simp at hi
  | cons l r =>
    obtain ⟨x, y⟩ := l
    cases i with
    | zero =>
      cases r with
      | nil => simp at hi
      | cons z r' =>
        obtain ⟨zx, zy⟩ := z
        simp [singleAgentAssignments, singleRest]
    | succ i =>
      rw [singleAgentAssignments]
      simp only [List.getD_cons_succ]
      exact singleRest_arrive_rec d r x _ i (by simpa using hi)

theorem single_getLast (d : Nat → Nat → Int) (links : List (Nat × Nat))
    (h : links ≠ []) :
    ((singleAgentAssignments d links).getLastD A0).depart =
      closedFormTotal d links := by
  cases links with
  | nil => exact absurd rfl h
  | cons l r =>
    obtain ⟨x, y⟩ := l
    rw [singleAgentAssignments, List.getLastD_cons, closedFormTotal]
    cases r with
    | nil => simp [singleRest, pairwiseTravel]
    | cons z r' =>
      rw [singleRest_getLast d _ _ _ _ (by simp)]
      simp only [List.length_cons, List.map_cons, pairwiseTravel]
      push_cast
      ring

theorem map_getD_range {α : Type} (l : List α) (d0 : α) :
    (List.range l.length).map (fun j => l.getD j d0) = l := by
  induction l with
  | nil => rfl
  | cons x r ih =>
    rw [List.length_cons, List.range_succ_eq_map, List.map_cons, List.map_map]
    have hc : ((fun j => (x :: r).getD j d0) ∘ Nat.succ) = fun j => r.getD j d0 := by
      funext j
      simp
    rw [List.getD_cons_zero, hc, ih]

theorem proj_singleRest (d : Nat → Nat → Int) :
    ∀ (rest : List (Nat × Nat)) (o : Nat) (t : Int),
      (singleRest d o t rest).map locationLink = rest := by
  intro rest
  induction rest with
  | nil => intro o t; rfl
  | cons l r ih =>
    intro o t
    obtain ⟨x, y⟩ := l
    simp only [singleRest, List.map_cons, locationLink]
    rw [ih]

theorem proj_single (d : Nat → Nat → Int) (links : List (Nat × Nat)) :
    (singleAgentAssignments d links).map locationLink = links := by
  cases links with
  | nil => rfl
  | cons l r =>
    obtain ⟨x, y⟩ := l
    simp only [singleAgentAssignments, List.map_cons, locationLink]
    rw [proj_singleRest]

theorem proj_fallbackSpec (num_agents : Nat) (links : List (Nat × Nat)) :
    (fallbackSpecSchedule num_agents links).map locationLink = links := by
  rw [fallbackSpecSchedule, List.map_map]
  have : ((fun a => locationLink a) ∘ (fun i =>
      ({ agent := i % num_agents, location := (links.getD i (0, 0)).1,
         arrive := (i : Int) * LINKTIME, link := (links.getD i (0, 0)).2,
         depart := (i : Int) * LINKTIME + LINKTIME } : Assignment))) =
      fun i => links.getD i (0, 0) := by
    funext i
    rfl
  rw [this, map_getD_range]

theorem flatten_groupRuns : ∀ links : List (Nat × Nat),
    (groupRuns links).flatten = links := by
  intro links
  induction links with
  | nil => rfl
  | cons l rest ih =>
    cases h : groupRuns rest with
    | nil =>
      rw [h, List.flatten_nil] at ih
      simp only [groupRuns, h]
      simp [← ih]
    | cons g gs =>
      rw [h] at ih
      simp only [groupRuns, h]
      split
      · simp [← ih]
      · simp [← ih]

theorem proj_emitFrom (links : List (Nat × Nat)) (agent : Nat) :
    ∀ (n i : Nat) (t : Int), i + n ≤ links.length →
      (emitFrom links agent i n t).map locationLink = (links.drop i).take n := by
  intro n
  induction n with
  | zero => intro i t _; simp [emitFrom]
  | succ n ih =>
    intro i t hle
    have hi : i < links.length := by omega
    rw [emitFrom]
    simp only [List.map_cons, locationLink]
    rw [ih (i + 1) _ (by omega)]
    rw [List.drop_eq_getElem_cons hi, List.take_succ_cons]
    congr 1
    rw [List.getD_eq_getElem links (0, 0) hi]

theorem take_sum_getD_le (l : List Nat) (k : Nat) :
    (l.take k).sum + l.getD k 0 ≤ l.sum := by
  induction l generalizing k with
  | nil => simp
  | cons x r ih =>
    cases k with
    | zero => simp
    | succ k =>
      simp only [List.take_succ_cons, List.sum_cons, List.getD_cons_succ]
      have := ih k
      omega

theorem slice_flatten {α : Type} : ∀ (gs : List (List α)) (k : Nat),
    ((gs.flatten.drop (((gs.map List.length).take k).sum)).take
      ((gs.map List.length).getD k 0)) = gs.getD k [] := by
  intro gs
  induction gs with
  | nil => intro k; simp
  | cons g rest ih =>
    intro k
    cases k with
    | zero =>
      simp only [List.map_cons, List.take_zero, List.sum_nil, List.getD_cons_zero,
        List.flatten_cons, List.drop_zero, List.getD_cons_zero]
      exact List.take_left g rest.flatten
    | succ k =>
      simp only [List.map_cons, List.take_succ_cons, List.sum_cons,
        List.getD_cons_succ, List.flatten_cons]
      rw [← List.drop_drop, List.drop_left]
      exact ih k

theorem proj_emit_node (links : List (Nat × Nat)) (agent : Nat)
    (k : Nat) (t : Int) :
    (emitFrom links agent ((((groupRuns links).map List.length).take k).sum)
        (((groupRuns links).map List.length).getD k 0) t).map locationLink =
      (groupRuns links).getD k [] := by
  set counts := (groupRuns links).map List.length with hc
  have hlen : counts.sum = links.length := by
    rw [hc, ← List.length_flatten, flatten_groupRuns]
  have hbound : (counts.take k).sum + counts.getD k 0 ≤ links.length := by
    rw [← hlen]; exact take_sum_getD_le counts k
  rw [proj_emitFrom links agent _ _ t hbound]
  have := slice_flatten (groupRuns links) k
  rw [flatten_groupRuns] at this
  exact this

theorem proj_extractRoute (links : List (Nat × Nat)) (agent : Nat)
    (arriveAt : Nat → Int) (route : List Nat) :
    (extractRoute links ((groupRuns links).map List.length) agent arriveAt route).map
        locationLink =
      (route.map (fun node => (groupRuns links).getD (node - 1) [])).flatten := by
  rw [extractRoute, List.map_flatten, List.map_map]
  congr 1
  apply List.map_congr_left
  intro node _
  exact proj_emit_node links agent (node - 1) (arriveAt node)

theorem proj_extractAll (links : List (Nat × Nat)) (arriveAt : Nat → Int) :
    ∀ (routes : List (List Nat)) (agent : Nat),
      (extractAll links ((groupRuns links).map List.length) arriveAt agent routes).map
          locationLink =
        ((routes.flatten).map (fun node => (groupRuns links).getD (node - 1) [])).flatten := by
  intro routes
  induction routes with
  | nil => intro agent; rfl
  | cons route rest ih =>
    intro agent
    rw [extractAll, List.map_append, proj_extractRoute, ih (agent + 1),
      List.flatten_cons, List.map_append, List.flatten_append]

theorem range_nodes_flatten (links : List (Nat × Nat)) :
    (((List.range' 1 (groupRuns links).length).map
        (fun node => (groupRuns links).getD (node - 1) []))).flatten = links := by
  rw [List.range'_eq_map_range, List.map_map]
  have hc : ((fun node => (groupRuns links).getD (node - 1) []) ∘ (1 + ·)) =
      fun j => (groupRuns links).getD j [] := by
    funext j
    simp
  rw [hc, map_getD_range, flatten_groupRuns]

theorem fallbackSpec_getD (num_agents : Nat) (links : List (Nat × Nat))
    (i : Nat) (hi : i < links.length) :
    (fallbackSpecSchedule num_agents links).getD i A0 =
      { agent := i % num_agents, location := (links.getD i (0, 0)).1,
        arrive := (i : Int) * LINKTIME, link := (links.getD i (0, 0)).2,
        depart := (i : Int) * LINKTIME + LINKTIME } := by
  rw [fallbackSpecSchedule, List.getD_eq_getElem _ _ (by simpa using hi)]
  simp

theorem pairwise_getD {R : Assignment → Assignment → Prop} (l : List Assignment)
    (h : l.Pairwise R) (i j : Nat) (hij : i < j) (hj : j < l.length) :
    R (l.getD i A0) (l.getD j A0) := by
  rw [List.getD_eq_getElem _ _ (by omega), List.getD_eq_getElem _ _ hj]
  exact List.pairwise_iff_getElem.mp h i j (by omega) hj hij

/-- C3 counterexample: with `num_agents == 1` but the optimization library
unavailable, `route_agents` takes the fallback, so the second action's
`arrive` is 30, not `depart[0] + travel_time(origin[0], origin[1]) = 40` as
the claim requires of every `num_agents == 1` input. -/
theorem C3_counterexample :
    route_agents false 1 twoLegDists [(0, 1), (2, 3)] none =
      .ok [⟨0, 0, 0, 1, 30⟩, ⟨0, 2, 30, 3, 60⟩] ∧
    ¬ ((30 : Int) = (30 : Int) + Int.fdiv (twoLegDists 0 2) WALKSPEED) :=
  ⟨rfl, by decide⟩

/-- C3 (amended): when the optimization library is available and
`num_agents == 1`, `route_agents` returns the actions in the input global
order, all on agent 0, with `arrive[0] = 0`,
`arrive[i] = depart[i-1] + travel_time` for `i > 0`,
`depart[i] = arrive[i] + LINKTIME`, and the final departure equal to the
closed-form sum of action durations and pairwise travel times. -/
theorem C3_amended_single_trivial (portals_dists : Nat → Nat → Int)
    (links : List (Nat × Nat)) (sol : Option SolverSolution) :
    route_agents true 1 portals_dists links sol =
      .ok (singleAgentAssignments portals_dists links) ∧
    (singleAgentAssignments portals_dists links).length = links.length ∧
    (∀ i, i < links.length →
      ((singleAgentAssignments portals_dists links).getD i A0).agent = 0 ∧
      ((singleAgentAssignments portals_dists links).getD i A0).location =
        (links.getD i (0, 0)).1 ∧
      ((singleAgentAssignments portals_dists links).getD i A0).link =
        (links.getD i (0, 0)).2 ∧
      ((singleAgentAssignments portals_dists links).getD i A0).depart =
        ((singleAgentAssignments portals_dists links).getD i A0).arrive + LINKTIME) ∧
    (0 < links.length →
      ((singleAgentAssignments portals_dists links).getD 0 A0).arrive = 0) ∧
    (∀ i, i + 1 < links.length →
      ((singleAgentAssignments portals_dists links).getD (i + 1) A0).arrive =
        ((singleAgentAssignments portals_dists links).getD i A0).depart +
          Int.fdiv (portals_dists (links.getD i (0, 0)).1
            (links.getD (i + 1) (0, 0)).1) WALKSPEED) ∧
    (links ≠ [] →
      ((singleAgentAssignments portals_dists links).getLastD A0).depart =
        closedFormTotal portals_dists links) := by
  refine ⟨?_, single_length _ _, fun i hi => single_getD_fields _ _ i hi,
    fun h => single_arrive_zero _ _ h, fun i hi => single_arrive_rec _ _ i hi,
    fun h => single_getLast _ _ h⟩
  rw [route_agents.eq_def]
  norm_num

theorem C3_amended_witness :
    route_agents true 1 twoLegDists [(0, 1), (2, 3)] none =
      .ok (singleAgentAssignments twoLegDists [(0, 1), (2, 3)]) ∧
    ((singleAgentAssignments twoLegDists [(0, 1), (2, 3)]).getD 1 A0).arrive =
      ((singleAgentAssignments twoLegDists [(0, 1), (2, 3)]).getD 0 A0).depart +
        Int.fdiv (twoLegDists (([(0, 1), (2, 3)].getD 0 (0, 0)) :
          Nat × Nat).1 (([(0, 1), (2, 3)].getD 1 (0, 0)) : Nat × Nat).1) WALKSPEED ∧
    ((singleAgentAssignments twoLegDists [(0, 1), (2, 3)]).getLastD A0).depart =
      closedFormTotal twoLegDists [(0, 1), (2, 3)] := by
  obtain ⟨h1, _, _, _, h5, h6⟩ :=
    C3_amended_single_trivial twoLegDists [(0, 1), (2, 3)] none
  exact ⟨h1, h5 0 (by decide), h6 (by decide)⟩

/-- C4: in degraded mode `route_agents` returns exactly the round-robin
fixed-increment schedule described by `fallbackSpecSchedule` — assignment
`i` on agent `i % num_agents` with `arrive = i·LINKTIME` and
`depart = arrive + LINKTIME` — and that list is sorted by `arrive`.
The equation holds for every distance matrix and every solver-solution
parameter, so the output is a function of `num_agents` and the action list
alone: repeated runs on the same inputs are identical (determinism). -/
theorem C4_fallback_roundrobin (num_agents : Nat) (hn : 1 ≤ num_agents)
    (portals_dists : Nat → Nat → Int) (links : List (Nat × Nat))
    (sol : Option SolverSolution) :
    route_agents false num_agents portals_dists links sol =
      .ok (fallbackSpecSchedule num_agents links) ∧
    List.Sorted arriveLE (fallbackSpecSchedule num_agents links) :=
  ⟨route_agents_fallback num_agents (by omega) portals_dists links sol,
   fallbackSpec_sorted num_agents links⟩

theorem C4_fallback_roundrobin_witness :
    1 ≤ 2 ∧
    (route_agents false 2 zeroDists [(0, 1), (2, 3)] none =
      .ok (fallbackSpecSchedule 2 [(0, 1), (2, 3)]) ∧
     List.Sorted arriveLE (fallbackSpecSchedule 2 [(0, 1), (2, 3)])) :=
  ⟨by decide, C4_fallback_roundrobin 2 (by decide) zeroDists [(0, 1), (2, 3)] none⟩

/-- C5: in the optimized path (library available, `num_agents ≠ 1`), when
the solver search finds no solution within its budget (`solution = none`,
line 212), `route_agents` raises `ValueError("No valid assignments found")`
— embedded as the `noValidAssignments` error — and returns no partial
result. -/
theorem C5_infeasible_error (num_agents : Nat) (portals_dists : Nat → Nat → Int)
    (links : List (Nat × Nat)) (h : num_agents ≠ 1) :
    route_agents true num_agents portals_dists links none =
      .error .noValidAssignments := by
  rw [route_agents.eq_def]
  simp [h]

theorem C5_infeasible_error_witness :
    (2 ≠ 1) ∧
    route_agents true 2 zeroDists [(0, 1)] none = .error .noValidAssignments :=
  ⟨by decide, C5_infeasible_error 2 zeroDists [(0, 1)] (by decide)⟩

/-- C9: the travel-time-chained single-agent trivial path requires the
optimization library: with `num_agents == 1` and the library unavailable,
`route_agents` instead returns the round-robin fallback schedule, whose
`arrive` times are the fixed-increment clock `i·LINKTIME` — the distance
matrix is quantified and unused, so travel between origins is ignored. -/
theorem C9_single_agent_fallback (portals_dists : Nat → Nat → Int)
    (links : List (Nat × Nat)) (sol : Option SolverSolution) :
    route_agents false 1 portals_dists links sol =
      .ok (fallbackSpecSchedule 1 links) :=
  route_agents_fallback 1 (by omega) portals_dists links sol

/-- C10: with the library unavailable, `num_agents == 0` and a non-empty
action list, the unguarded `i % self.num_agents` at line 92 raises
`ZeroDivisionError` on the first iteration; no validation error exists in
the code (`RouterErr` has no such case). -/
theorem C10_zero_agents_division (portals_dists : Nat → Nat → Int)
    (links : List (Nat × Nat)) (sol : Option SolverSolution) (h : links ≠ []) :
    route_agents false 0 portals_dists links sol = .error .zeroDivisionError := by
  rw [route_agents.eq_def, if_pos rfl, fallbackLoop_zero_agents links h 0 0]

theorem C10_zero_agents_division_witness :
    ([(0, 1)] : List (Nat × Nat)) ≠ [] ∧
    route_agents false 0 zeroDists [(0, 1)] none = .error .zeroDivisionError :=
  ⟨by decide, C10_zero_agents_division zeroDists [(0, 1)] none (by decide)⟩

/-- C2 counterexample: in fallback mode with two agents, action 1 depends
on action 0 (dependency sets `[[], [(0,1)]]`), the two actions land on
different agents (1 and 0), yet `arrive` of action 1 is 30 <
`depart` of action 0 plus the communication delay = 60.  The fallback never
adds the communication delay, so the claim fails as stated. -/
theorem C2_counterexample :
    route_agents false 2 zeroDists [(0, 1), (2, 3)] none =
      .ok [⟨0, 0, 0, 1, 30⟩, ⟨1, 2, 30, 3, 60⟩] ∧
    ((0, 1) ∈ (([[], [(0, 1)]] : List (List (Nat × Nat))).getD 1 [])) ∧
    (⟨1, 2, 30, 3, 60⟩ : Assignment).agent ≠ (⟨0, 0, 0, 1, 30⟩ : Assignment).agent ∧
    ¬ ((⟨1, 2, 30, 3, 60⟩ : Assignment).arrive ≥
        (⟨0, 0, 0, 1, 30⟩ : Assignment).depart + COMMTIME) :=
  ⟨rfl, by decide, by decide, by decide⟩

/-- C2 (amended): in the embeddable solver-free modes, provided each
prerequisite precedes its dependent in the global order (the upstream
invariant the code assumes), every dependent action's `arrive` is ≥ its
prerequisite's `depart`; no communication delay is added, even when the two
actions are assigned to different agents.  In fallback mode this holds for
any `num_agents ≥ 1`; in the single-agent trivial mode it holds for
non-negative distance matrices. -/
theorem C2_amended_dependency (num_agents : Nat) (portals_dists : Nat → Nat → Int)
    (links : List (Nat × Nat)) (depends : List (List (Nat × Nat)))
    (sol : Option SolverSolution) (i j : Nat)
    (hn : 1 ≤ num_agents) (hij : i < j) (hj : j < links.length)
    (_hdep : links.getD i (0, 0) ∈ depends.getD j []) :
    (∀ out, route_agents false num_agents portals_dists links sol = .ok out →
      (out.getD i A0).depart ≤ (out.getD j A0).arrive) ∧
    ((∀ a b, 0 ≤ portals_dists a b) →
      ∀ out, route_agents true 1 portals_dists links sol = .ok out →
        (out.getD i A0).depart ≤ (out.getD j A0).arrive) := by
  constructor
  · intro out hout
    rw [route_agents_fallback num_agents (by omega) portals_dists links sol] at hout
    injection hout with hout
    subst hout
    rw [fallbackSpec_getD num_agents links i (by omega),
      fallbackSpec_getD num_agents links j hj]
    have : (i : Int) < (j : Int) := by exact_mod_cast hij
    simp only [LINKTIME]
    omega
  · intro hd out hout
    rw [route_agents.eq_def] at hout
    norm_num at hout
    subst hout
    have hp := single_pairwise portals_dists hd links
    exact pairwise_getD _ hp i j hij (by rw [single_length]; omega)

theorem C2_amended_dependency_witness :
    (1 ≤ 2 ∧ 0 < 1 ∧ 1 < 2) ∧
    (∀ out, route_agents false 2 zeroDists [(0, 1), (2, 3)] none = .ok out →
      (out.getD 0 A0).depart ≤ (out.getD 1 A0).arrive) := by
  have h := C2_amended_dependency 2 zeroDists [(0, 1), (2, 3)] [[], [(0, 1)]]
    none 0 1 (by decide) (by decide) (by decide) (by decide)
  exact ⟨⟨by decide, by decide, by decide⟩, h.1⟩

/-- C6 counterexample: a negative-valued distance matrix is a malformed
input per the claim, yet `route_agents` performs no validation: it returns
a complete schedule (whose second `arrive` is `30 + (-5) = 25`) instead of
failing with an `InvalidInputError`. -/
theorem C6_counterexample :
    negDists 0 1 < 0 ∧
    route_agents true 1 negDists [(0, 1), (1, 2)] none =
      .ok [⟨0, 0, 0, 1, 30⟩, ⟨0, 1, 25, 2, 55⟩] :=
  ⟨by decide, rfl⟩

/-- C6 (amended): `route_agents` performs no eager input validation and
defines no `InvalidInputError`.  The distance matrix's values are never
inspected: with the library available and `num_agents = 1`, every matrix —
negative-valued ones included — yields a complete schedule.  And
`num_agents = 0` is not rejected eagerly: with the library unavailable it
surfaces only as the fallback loop's `ZeroDivisionError` once a first
action is processed.  An action referencing a node absent from the matrix
raises an unhandled `IndexError` at `self.portals_dists[...]`
(router.py lines 120-123) rather than a validation error; distances are
embedded here as a total function, so that error path is not representable
in this model and the amended claim asserts nothing about it. -/
theorem C6_amended_no_validation (portals_dists : Nat → Nat → Int)
    (links : List (Nat × Nat)) (sol : Option SolverSolution) :
    route_agents true 1 portals_dists links sol =
      .ok (singleAgentAssignments portals_dists links) ∧
    (links ≠ [] → route_agents false 0 portals_dists links sol =
      .error .zeroDivisionError) := by
  constructor
  · rw [route_agents.eq_def]
    norm_num
  · intro h
    rw [route_agents.eq_def, if_pos rfl, fallbackLoop_zero_agents links h 0 0]

theorem C6_amended_no_validation_witness :
    route_agents true 1 negDists [(0, 1), (1, 2)] none =
      .ok (singleAgentAssignments negDists [(0, 1), (1, 2)]) ∧
    route_agents false 0 negDists [(0, 1), (1, 2)] none =
      .error .zeroDivisionError := by
  have h := C6_amended_no_validation negDists [(0, 1), (1, 2)] none
  exact ⟨h.1, h.2 (by decide)⟩

/-- C7 counterexample: in fallback mode with two agents and three actions,
agent 0's consecutive assignments are actions 0 and 2; travel from portal 0
to portal 4 takes 1000, but `arrive` of the later assignment is 60 <
`depart` of the earlier (30) plus travel (1000).  The fallback ignores
travel time, so the claim fails as stated. -/
theorem C7_counterexample :
    route_agents false 2 farDists [(0, 1), (2, 3), (4, 5)] none =
      .ok [⟨0, 0, 0, 1, 30⟩, ⟨1, 2, 30, 3, 60⟩, ⟨0, 4, 60, 5, 90⟩] ∧
    (⟨0, 4, 60, 5, 90⟩ : Assignment).agent = (⟨0, 0, 0, 1, 30⟩ : Assignment).agent ∧
    ¬ ((⟨0, 4, 60, 5, 90⟩ : Assignment).arrive ≥
        (⟨0, 0, 0, 1, 30⟩ : Assignment).depart +
          Int.fdiv (farDists 0 4) WALKSPEED) :=
  ⟨rfl, rfl, by decide⟩

/-- C7 (amended): in the embeddable solver-free modes, for every agent the
assignments of that agent satisfy the weaker timeline invariant
`arrive` of any later one ≥ `depart` of any earlier one (pairwise, hence in
particular for consecutive ones); the travel-time term is not guaranteed.
Fallback mode needs `num_agents ≥ 1`; the single-agent trivial mode needs a
non-negative distance matrix. -/
theorem C7_amended_per_agent (num_agents : Nat) (portals_dists : Nat → Nat → Int)
    (links : List (Nat × Nat)) (sol : Option SolverSolution) :
    (1 ≤ num_agents →
      ∀ out, route_agents false num_agents portals_dists links sol = .ok out →
      ∀ a, (out.filter (fun x => x.agent == a)).Pairwise
        (fun x y => x.depart ≤ y.arrive)) ∧
    ((∀ a b, 0 ≤ portals_dists a b) →
      ∀ out, route_agents true 1 portals_dists links sol = .ok out →
      ∀ a, (out.filter (fun x => x.agent == a)).Pairwise
        (fun x y => x.depart ≤ y.arrive)) := by
  constructor
  · intro hn out hout a
    rw [route_agents_fallback num_agents (by omega) portals_dists links sol] at hout
    injection hout with hout
    subst hout
    exact (fallbackSpec_pairwise_depart num_agents links).sublist
      (List.filter_sublist _)
  · intro hd out hout a
    rw [route_agents.eq_def] at hout
    norm_num at hout
    subst hout
    exact (single_pairwise portals_dists hd links).sublist (List.filter_sublist _)

theorem C7_amended_per_agent_witness :
    (1 ≤ 2) ∧
    (∀ out, route_agents false 2 farDists [(0, 1), (2, 3), (4, 5)] none = .ok out →
      ∀ a, (out.filter (fun x => x.agent == a)).Pairwise
        (fun x y => x.depart ≤ y.arrive)) := by
  have h := C7_amended_per_agent 2 farDists [(0, 1), (2, 3), (4, 5)] none
  exact ⟨by decide, h.1 (by decide)⟩

/-- C8: every successfully returned schedule is sorted by `arrive`
ascending: the fallback and optimized paths sort explicitly, and the
single-agent trivial path is produced already sorted provided the distance
matrix is non-negative. -/
theorem C8_sorted_by_arrive (hasOrtools : Bool) (num_agents : Nat)
    (portals_dists : Nat → Nat → Int) (links : List (Nat × Nat))
    (sol : Option SolverSolution)
    (hn : 1 ≤ num_agents) (hd : ∀ a b, 0 ≤ portals_dists a b)
    (out : List Assignment)
    (hout : route_agents hasOrtools num_agents portals_dists links sol = .ok out) :
    List.Sorted arriveLE out := by
  cases hasOrtools with
  | false =>
    rw [route_agents_fallback num_agents (by omega) portals_dists links sol] at hout
    injection hout with hout
    subst hout
    exact fallbackSpec_sorted num_agents links
  | true =>
    rw [route_agents.eq_def] at hout
    by_cases h1 : num_agents = 1
    · rw [if_neg (by decide), if_pos h1] at hout
      injection hout with hout
      subst hout
      exact single_sorted portals_dists hd links
    · rw [if_neg (by decide), if_neg h1] at hout
      cases sol with
      | none => exact absurd hout (by simp)
      | some s =>
        injection hout with hout
        subst hout
        exact List.sorted_insertionSort arriveLE _

theorem C8_sorted_by_arrive_witness :
    (1 ≤ 1) ∧
    List.Sorted arriveLE [⟨0, 0, 0, 1, 30⟩, ⟨0, 2, 30, 3, 60⟩] :=
  ⟨by decide,
   C8_sorted_by_arrive false 1 zeroDists [(0, 1), (2, 3)] none (by decide)
     (fun a b => le_refl 0) [⟨0, 0, 0, 1, 30⟩, ⟨0, 2, 30, 3, 60⟩] rfl⟩

/-- C1: every successfully returned schedule covers the input links exactly
— the multiset of performed (location, link) pairs is a permutation of the
ordered link list — in all three modes.  For the optimized mode the
abstracted solver solution is assumed to visit each cut-origin node exactly
once across all agents (`routes.flatten` permutes `1..K`), which is what
the vehicle-routing formulation guarantees for any returned solution. -/
theorem C1_coverage (hasOrtools : Bool) (num_agents : Nat)
    (portals_dists : Nat → Nat → Int) (links : List (Nat × Nat))
    (sol : Option SolverSolution)
    (hn : 1 ≤ num_agents)
    (hsol : ∀ s, sol = some s →
      s.routes.flatten.Perm (List.range' 1 (groupRuns links).length))
    (out : List Assignment)
    (hout : route_agents hasOrtools num_agents portals_dists links sol = .ok out) :
    (out.map locationLink).Perm links := by
  cases hasOrtools with
  | false =>
    rw [route_agents_fallback num_agents (by omega) portals_dists links sol] at hout
    injection hout with hout
    subst hout
    rw [proj_fallbackSpec]
  | true =>
    rw [route_agents.eq_def] at hout
    by_cases h1 : num_agents = 1
    · rw [if_neg (by decide), if_pos h1] at hout
      injection hout with hout
      subst hout
      rw [proj_single]
    · rw [if_neg (by decide), if_neg h1] at hout
      cases sol with
      | none => exact absurd hout (by simp)
      | some s =>
        injection hout with hout
        subst hout
        have hperm := hsol s rfl
        have h1p : ((List.insertionSort arriveLE
            (extractAll links ((groupRuns links).map List.length)
              s.arriveAt 0 s.routes)).map locationLink).Perm
            ((extractAll links ((groupRuns links).map List.length)
              s.arriveAt 0 s.routes).map locationLink) :=
          (List.perm_insertionSort arriveLE _).map locationLink
        rw [proj_extractAll links s.arriveAt s.routes 0] at h1p
        have h2p := (hperm.map
          (fun node => (groupRuns links).getD (node - 1) [])).flatten
        rw [range_nodes_flatten] at h2p
        exact h1p.trans h2p

theorem C1_coverage_witness :
    1 ≤ 2 ∧
    (([[1], [2]] : List (List Nat)).flatten.Perm
      (List.range' 1 (groupRuns [(0, 1), (0, 2), (3, 4)]).length)) ∧
    (([⟨0, 0, 100, 1, 130⟩, ⟨0, 0, 130, 2, 160⟩, ⟨1, 3, 200, 4, 230⟩] :
        List Assignment).map locationLink).Perm [(0, 1), (0, 2), (3, 4)] :=
  ⟨by decide, by decide,
   C1_coverage true 2 zeroDists [(0, 1), (0, 2), (3, 4)]
     (some ⟨[[1], [2]], fun n => (n : Int) * 100⟩) (by decide)
     (by intro s hs; cases hs; decide)
     [⟨0, 0, 100, 1, 130⟩, ⟨0, 0, 130, 2, 160⟩, ⟨1, 3, 200, 4, 230⟩] (by rfl)⟩

end Maxfield
